import Mathlib

/-!
Verification of the metadata-to-metrics reconciliation engine of
`examples/monitoring/prometheus-exporter.py` (class `MetadataCollector`).

The Python program is embedded shallowly:

* a scalar JSON value becomes `JValue`; a parsed metadata object becomes
  `MetadataRecord` (the recognized fields, each optional, plus the
  filename-derived `repository` field injected by `parse_metadata`);
* a file of the metadata directory becomes `MFile`: its name and either
  its parsed JSON object or `none` for an unreadable file, malformed
  JSON, or a non-object document (all of which make `json.load` or the
  `data['repository'] = ...` assignment raise, caught in
  `parse_metadata`);
* the process-wide Prometheus registry becomes `MetricsState`: the
  histogram is the list of its observations, each gauge is a partial map
  from label to value (`none` = series never written), each counter a
  total map defaulting to `0`;
* Python exceptions escaping `update_metrics` become `Except String`;
  sizes of output files on disk are a parameter `fsys : String → Option ℚ`
  (`none` = path does not exist).

Machine floats of the source are modelled exactly as rationals; string
operations (`str.replace`, `in`, `.lower`) are re-implemented with
Python's semantics over `List Char`.
-/

namespace Relay

/-- A scalar JSON value.  The exporter only ever inspects scalars in the
fields it reads; arrays/objects in those positions would behave like the
non-numeric cases and are not distinguished by any claim. -/
inductive JValue where
  | jnull
  | jbool (b : Bool)
  | jnum (q : ℚ)
  | jstr (s : String)
deriving DecidableEq

/-- Python truthiness of a scalar (`if value:`). -/
def truthy : JValue → Bool
  | .jnull => false
  | .jbool b => b
  | .jnum q => decide (q ≠ 0)
  | .jstr s => decide (s ≠ "")

/-- Numeric reading of a value, as accepted by `Histogram.observe` /
`Counter.inc` / `Gauge.set` of `prometheus_client` (a Python number;
`bool` counts as a number, `str` and `None` raise `TypeError`).
Numeric strings, which `Gauge.set` alone would coerce via `float()`,
are outside the modelled domain. -/
def toNum? : JValue → Option ℚ
  | .jnum q => some q
  | .jbool b => some (if b then 1 else 0)
  | _ => none

/-- Python `str()` of a scalar.  The numeric rendering differs in form
from CPython's but no substring relevant to error classification occurs
in either rendering. -/
def pyStr : JValue → String
  | .jstr s => s
  | .jbool true => "True"
  | .jbool false => "False"
  | .jnull => "None"
  | .jnum q => toString q

/-- Python `str.replace` over character lists: replace every
non-overlapping occurrence of `pat`, scanning left to right.  Fuel-based
structural recursion (each step consumes at least one character of `s`
when `pat` is non-empty, so `s.length` fuel is enough); out of fuel or
an (unused) empty pattern returns the remaining string unchanged. -/
def pyReplaceAux : Nat → List Char → List Char → List Char → List Char
  | 0, s, _, _ => s
  | fuel + 1, s, pat, rep =>
    if pat = [] then s
    else if pat.isPrefixOf s then
      rep ++ pyReplaceAux fuel (s.drop pat.length) pat rep
    else
      match s with
      | [] => []
      | c :: t => c :: pyReplaceAux fuel t pat rep

/-- Python `str.replace` on character lists. -/
def pyReplace (s pat rep : List Char) : List Char :=
  pyReplaceAux s.length s pat rep

/-- Python `str.replace` on strings. -/
def strReplace (s pat rep : String) : String :=
  String.mk (pyReplace s.toList pat.toList rep.toList)

/-- Python `str.lower` (ASCII case folding suffices for every pattern
the exporter matches). -/
def lowerStr (s : String) : String :=
  String.mk (s.toList.map Char.toLower)

/-- Python `pat in s` substring test over character lists. -/
def containsSub : List Char → List Char → Bool
  | [], pat => pat.isEmpty
  | c :: t, pat => pat.isPrefixOf (c :: t) || containsSub t pat

/-- Python `pat in s` on strings. -/
def containsSubStr (s pat : String) : Bool :=
  containsSub s.toList pat.toList

/-- The recognized fields of one metadata JSON object (absent keys are
`none`; unrecognized keys are ignored by the source and not modelled).
The source JSON key of `partialFlag` is `"partial"`. -/
structure RawRecord where
  all : Option JValue := none
  duration : Option JValue := none
  pullRequestsFetched : Option JValue := none
  endTime : Option JValue := none
  error : Option JValue := none
  partialFlag : Option JValue := none
  retryCount : Option JValue := none
  outputFile : Option JValue := none
deriving DecidableEq

/-- One entry of the metadata directory: file name, and the parsed JSON
object, `none` when reading or parsing it would raise. -/
structure MFile where
  name : String
  content : Option RawRecord
deriving DecidableEq

/-- A metadata record as produced by `parse_metadata`: the JSON fields
plus the injected `repository` key. -/
structure MetadataRecord where
  repository : String
  all : Option JValue := none
  duration : Option JValue := none
  pullRequestsFetched : Option JValue := none
  endTime : Option JValue := none
  error : Option JValue := none
  partialFlag : Option JValue := none
  retryCount : Option JValue := none
  outputFile : Option JValue := none
deriving DecidableEq

/-- `Path.stem` of a name that ends in the one-dot suffix `".json"`
(every scanned file does): drop the 5 suffix characters. -/
def stemOf (name : String) : String :=
  String.mk (name.toList.take (name.toList.length - 5))

/-- `filepath.stem.replace('_metadata', '').replace('_', '/')`. -/
def deriveRepository (name : String) : String :=
  strReplace (strReplace (stemOf name) "_metadata" "") "_" "/"

/-- `self.metadata_dir.glob("*_metadata.json")`: the files whose name
matches the pattern (`*` also matches the empty string). -/
def scan_metadata_files (files : List MFile) : List MFile :=
  files.filter fun f => "_metadata.json".toList.isSuffixOf f.name.toList

/-- `MetadataCollector.parse_metadata`: load the JSON object, inject the
filename-derived `repository` key; any exception is caught, logged and
turned into `None`. -/
def parse_metadata (f : MFile) : Option MetadataRecord :=
  f.content.map fun d =>
    { repository := deriveRepository f.name
      all := d.all
      duration := d.duration
      pullRequestsFetched := d.pullRequestsFetched
      endTime := d.endTime
      error := d.error
      partialFlag := d.partialFlag
      retryCount := d.retryCount
      outputFile := d.outputFile }

/-- Gregorian leap year. -/
def isLeap (y : Nat) : Bool :=
  decide (y % 4 = 0) && (decide (y % 100 ≠ 0) || decide (y % 400 = 0))

/-- Length of a month. -/
def daysInMonth (y mo : Nat) : Nat :=
  if mo = 2 then (if isLeap y then 29 else 28)
  else if mo = 4 ∨ mo = 6 ∨ mo = 9 ∨ mo = 11 then 30
  else 31

/-- Days from 1970-01-01 to y-mo-d in the proleptic Gregorian calendar
(civil-from-days algorithm; every division below has non-negative
operands for `1 ≤ y`). -/
def daysFromCivil (y mo d : Nat) : Int :=
  let yi : Int := y
  let y2 : Int := if mo ≤ 2 then yi - 1 else yi
  let era : Int := (if 0 ≤ y2 then y2 else y2 - 399) / 400
  let yoe : Int := y2 - era * 400
  let mp : Int := if 2 < mo then (mo : Int) - 3 else (mo : Int) + 9
  let doy : Int := (153 * mp + 2) / 5 + (d : Int) - 1
  let doe : Int := yoe * 365 + yoe / 4 - yoe / 100 + doy
  era * 146097 + doe - 719468

/-- Numeric value of an ASCII digit. -/
def digitVal (c : Char) : Option Nat :=
  if c.isDigit then some (c.toNat - 48) else none

/-- Two-digit number. -/
def d2 (a b : Char) : Option Nat := do
  pure (10 * (← digitVal a) + (← digitVal b))

/-- Four-digit number. -/
def d4 (a b c d : Char) : Option Nat := do
  pure (1000 * (← digitVal a) + 100 * (← digitVal b) + 10 * (← digitVal c) + (← digitVal d))

/-- Fractional-second tail of `_parse_hh_mm_ss_ff`: exactly 3 or 6
digits after the dot, yielding microseconds. -/
def parseFrac : List Char → Option Nat
  | [a, b, c] => do
    pure (1000 * (100 * (← digitVal a) + 10 * (← digitVal b) + (← digitVal c)))
  | [a, b, c, d, e, f] => do
    pure (100000 * (← digitVal a) + 10000 * (← digitVal b) + 1000 * (← digitVal c)
      + 100 * (← digitVal d) + 10 * (← digitVal e) + (← digitVal f))
  | _ => none

/-- CPython `_parse_hh_mm_ss_ff`: `HH`, `HH:MM`, `HH:MM:SS` or
`HH:MM:SS.fff`/`HH:MM:SS.ffffff` as (hour, minute, second,
microsecond); anything else raises.  Fixed-width fields (here and in
the date) are ASCII digits in this model; Python's `int()` additionally
tolerates a leading space or sign, embedded underscores, and non-ASCII
decimal digits inside a field — degenerate spellings such as
`"2024- 1-01"` that are outside the modelled domain. -/
def parseHMSF : List Char → Option (Nat × Nat × Nat × Nat)
  | [a, b] => do
    pure ((← d2 a b), 0, 0, 0)
  | [a, b, ':', c, d] => do
    pure ((← d2 a b), (← d2 c d), 0, 0)
  | [a, b, ':', c, d, ':', e, f] => do
    pure ((← d2 a b), (← d2 c d), (← d2 e f), 0)
  | a :: b :: ':' :: c :: d :: ':' :: e :: f :: '.' :: rest => do
    pure ((← d2 a b), (← d2 c d), (← d2 e f), (← parseFrac rest))
  | _ => none

/-- Index of the first occurrence of a character. -/
def idxOf (c : Char) : List Char → Option Nat
  | [] => none
  | x :: t => if x = c then some 0 else (idxOf c t).map (fun i => i + 1)

/-- CPython `fromisoformat`'s timezone split of the time substring:
`tstr.find('-') + 1 or tstr.find('+') + 1` — the first `-` anywhere
wins over any `+`; returns the time part, and the sign character with
the offset part when one was found. -/
def tzSplit (t : List Char) : List Char × Option (Char × List Char) :=
  match idxOf '-' t with
  | some i => (t.take i, some ('-', t.drop (i + 1)))
  | none =>
    match idxOf '+' t with
    | some i => (t.take i, some ('+', t.drop (i + 1)))
    | none => (t, none)

/-- A parsed `datetime`: civil fields plus the UTC offset in
microseconds (`none` = naive). -/
structure PyDT where
  year : Nat
  month : Nat
  day : Nat
  hour : Nat
  minute : Nat
  second : Nat
  microsecond : Nat
  tzOffUs : Option Int
deriving DecidableEq

/-- Models `datetime.fromisoformat` with the CPython 3.7-3.10 grammar
(the version range the source's `Z`-to-`+00:00` rewrite targets; 3.11
widened the accepted forms): `YYYY-MM-DD`, optionally followed by any
single separator character and `HH[:MM[:SS[.fff|.ffffff]]]`, optionally
followed by an offset `±HH:MM[:SS[.ffffff]]`; date and time fields are
range-checked as the `date`/`time` constructors do, the offset only
against the strict 24-hour bound of `timezone`. -/
def fromisoformat (s : String) : Option PyDT :=
  let cs := s.toList
  match cs.take 10 with
  | [y1, y2, y3, y4, '-', mo1, mo2, '-', dd1, dd2] => do
    let y ← d4 y1 y2 y3 y4
    let mo ← d2 mo1 mo2
    let d ← d2 dd1 dd2
    if 1 ≤ y ∧ 1 ≤ mo ∧ mo ≤ 12 ∧ 1 ≤ d ∧ d ≤ daysInMonth y mo then
      if cs.length = 10 then
        pure ⟨y, mo, d, 0, 0, 0, 0, none⟩
      else
        let tstr := cs.drop 11
        if tstr.isEmpty then none
        else
          match tzSplit tstr with
          | (timestr, tzpart) =>
            match parseHMSF timestr with
            | none => none
            | some (h, mi, se, us) =>
              if h ≤ 23 ∧ mi ≤ 59 ∧ se ≤ 59 then
                match tzpart with
                | none => pure ⟨y, mo, d, h, mi, se, us, none⟩
                | some (sgn, tzstr) =>
                  if tzstr.length = 5 ∨ tzstr.length = 8 ∨ tzstr.length = 15 then
                    match parseHMSF tzstr with
                    | none => none
                    | some (th, tm, ts2, tus) =>
                      let mag : Int := (((th * 3600 + tm * 60 + ts2) * 1000000 + tus : Nat) : Int)
                      let off : Int := if sgn = '-' then -mag else mag
                      if off.natAbs < 86400000000 then
                        pure ⟨y, mo, d, h, mi, se, us, some off⟩
                      else none
                  else none
              else none
    else none
  | _ => none

/-- Models `datetime.timestamp()` of a parsed value, in seconds as an
exact rational.  An aware datetime subtracts its offset
(deterministic); a naive one is read on a host whose local timezone is
UTC — on another host Python would shift the naive value by the local
offset, which no claim depends on. -/
def timestampUTC (dt : PyDT) : ℚ :=
  mkRat
    (daysFromCivil dt.year dt.month dt.day * 86400000000
      + (((dt.hour * 3600 + dt.minute * 60 + dt.second) * 1000000 + dt.microsecond : Nat) : Int)
      - dt.tzOffUs.getD 0)
    1000000

/-- The process-wide Prometheus registry, restricted to the series the
exporter touches.  The histogram is its observation list (in
observation order); a gauge maps a `repository` label to its current
value, `none` when the labelled series was never written; counters map
labels to their value, `0` before any increment. -/
@[ext]
structure MetricsState where
  fetch_duration : List (String × String × ℚ)
  prs_fetched : String → Option ℚ
  fetch_errors : String → String → ℚ
  last_fetch_timestamp : String → Option ℚ
  fetch_state : String → Option ℚ
  rate_limit_encounters : String → ℚ
  network_retries : String → ℚ
  output_file_size : String → Option ℚ

/-- `Gauge.labels(r).set(v)`. -/
def gset (g : String → Option ℚ) (r : String) (v : ℚ) : String → Option ℚ :=
  fun x => if x = r then some v else g x

/-- `Counter.labels(r).inc(a)` (the caller checks `a` is admissible). -/
def cinc (cnt : String → ℚ) (r : String) (a : ℚ) : String → ℚ :=
  fun x => if x = r then cnt x + a else cnt x

/-- Two-label counter increment. -/
def cinc2 (cnt : String → String → ℚ) (r t : String) (a : ℚ) :
    String → String → ℚ :=
  fun x y => if x = r ∧ y = t then cnt x y + a else cnt x y

/-- Error classification of `update_metrics` (lines 125-134): lowercase
the message and match the three substrings in priority order. -/
def errorType (msg : String) : String :=
  let l := lowerStr msg
  if containsSubStr l "rate limit" then "rate_limit"
  else if containsSubStr l "timeout" then "timeout"
  else if containsSubStr l "network" then "network"
  else "unknown"

/-- `update_metrics`, duration block (lines 99-104): observe the fetch
duration, labelled by repository and fetch type; a non-numeric value
makes the histogram's `+=` raise `TypeError`. -/
def stepDuration (st : MetricsState) (m : MetadataRecord) :
    Except String MetricsState :=
  match m.duration with
  | none => .ok st
  | some v =>
    let fetch_type := if truthy (m.all.getD (.jbool false)) then "full" else "incremental"
    match toNum? v with
    | some q =>
      .ok { st with fetch_duration := st.fetch_duration ++ [(m.repository, fetch_type, q)] }
    | none => .error "TypeError: observe"

/-- `update_metrics`, PRs-fetched block (lines 107-108). -/
def stepPrs (st : MetricsState) (m : MetadataRecord) :
    Except String MetricsState :=
  match m.pullRequestsFetched with
  | none => .ok st
  | some v =>
    match toNum? v with
    | some q => .ok { st with prs_fetched := gset st.prs_fetched m.repository q }
    | none => .error "ValueError: set"

/-- `update_metrics`, timestamp block (lines 111-118): the whole block
is wrapped in `try`/bare `except: pass`, so a non-string value (whose
`.replace` raises `AttributeError`) or an unparseable string leaves the
gauge untouched; this step never fails. -/
def stepEndTime (st : MetricsState) (m : MetadataRecord) : MetricsState :=
  match m.endTime with
  | some (.jstr s) =>
    match fromisoformat (strReplace s "Z" "+00:00") with
    | some dt =>
      { st with last_fetch_timestamp := gset st.last_fetch_timestamp m.repository (timestampUTC dt) }
    | none => st
  | _ => st

/-- `update_metrics`, fetch-state block (lines 121-143): a truthy
`error` value means FAILED(3) plus error classification and counter
increments, else a truthy `partial` means PARTIAL(2), else SUCCESS(1);
this step never fails. -/
def stepState (st : MetricsState) (m : MetadataRecord) : MetricsState :=
  let errv := m.error.getD .jnull
  if truthy errv then
    let error_msg := pyStr errv
    let error_type := errorType error_msg
    let st1 := { st with fetch_state := gset st.fetch_state m.repository 3 }
    let st2 :=
      if error_type = "rate_limit" then
        { st1 with rate_limit_encounters := cinc st1.rate_limit_encounters m.repository 1 }
      else st1
    { st2 with fetch_errors := cinc2 st2.fetch_errors m.repository error_type 1 }
  else if truthy (m.partialFlag.getD .jnull) then
    { st with fetch_state := gset st.fetch_state m.repository 2 }
  else
    { st with fetch_state := gset st.fetch_state m.repository 1 }

/-- `update_metrics`, retry block (lines 146-147): `Counter.inc`
raises `TypeError` on a non-number and `ValueError` on a negative
amount. -/
def stepRetry (st : MetricsState) (m : MetadataRecord) :
    Except String MetricsState :=
  match m.retryCount with
  | none => .ok st
  | some v =>
    match toNum? v with
    | none => .error "TypeError: inc"
    | some q =>
      if q < 0 then .error "ValueError: negative inc"
      else .ok { st with network_retries := cinc st.network_retries m.repository q }

/-- `update_metrics`, output-file block (lines 150-155): a truthy
non-string value makes `Path(...)` raise `TypeError`; a path that does
not exist leaves the gauge untouched. -/
def stepOutput (fsys : String → Option ℚ) (st : MetricsState)
    (m : MetadataRecord) : Except String MetricsState :=
  let output_file := m.outputFile.getD .jnull
  if truthy output_file then
    match output_file with
    | .jstr p =>
      match fsys p with
      | some size => .ok { st with output_file_size := gset st.output_file_size m.repository size }
      | none => .ok st
    | _ => .error "TypeError: Path"
  else .ok st

/-- `MetadataCollector.update_metrics`: the six field blocks in source
order; an uncaught exception aborts the remaining blocks. -/
def update_metrics (fsys : String → Option ℚ) (st : MetricsState)
    (m : MetadataRecord) : Except String MetricsState := do
  let s1 ← stepDuration st m
  let s2 ← stepPrs s1 m
  let s3 := stepEndTime s2 m
  let s4 := stepState s3 m
  let s5 ← stepRetry s4 m
  stepOutput fsys s5 m

/-- The collector's state: the registry plus the process-lifetime
`known_repos` table (repository id → last stored record). -/
structure Collector where
  metrics : MetricsState
  known_repos : String → Option MetadataRecord

/-- The first loop of `collect_metrics` (lines 161-165) over the
already-parsed records, in file order: update the registry, store the
record in `known_repos`; an exception escaping `update_metrics`
propagates and the remaining records are not processed. -/
def runRecords (fsys : String → Option ℚ) (c : Collector) :
    List MetadataRecord → Collector × Option String
  | [] => (c, none)
  | m :: ms =>
    match update_metrics fsys c.metrics m with
    | .error e => (c, some e)
    | .ok st2 =>
      runRecords fsys
        { metrics := st2
          known_repos := fun r => if r = m.repository then some m else c.known_repos r }
        ms

/-- The body of `collect_metrics` after parsing: run the per-record
loop, then (if no exception escaped) the second loop (lines 168-171)
sets the fetch-state gauge to 0 for every `known_repos` key absent from
this cycle's parsed repository list.  The source recomputes that list by
re-parsing the same files; in the pure model this equals the parsed
records' repositories.  The second loop touches each dict key once, so
it is embedded as the equivalent pointwise update of the gauge. -/
def collectRecs (fsys : String → Option ℚ) (c : Collector)
    (recs : List MetadataRecord) : Collector × Option String :=
  match runRecords fsys c recs with
  | (c2, some e) => (c2, some e)
  | (c2, none) =>
    let cur := recs.map (·.repository)
    ({ c2 with
        metrics := { c2.metrics with
          fetch_state := fun r =>
            if (c2.known_repos r).isSome = true ∧ r ∉ cur then some 0
            else c2.metrics.fetch_state r } },
     none)

/-- This cycle's successfully parsed record list: scan the directory,
parse every matching file, drop the failures. -/
def cycleRecords (files : List MFile) : List MetadataRecord :=
  (scan_metadata_files files).filterMap parse_metadata

/-- `MetadataCollector.collect_metrics`: scan the directory, parse every
matching file (failures are dropped), and run the cycle body. -/
def collect_metrics (fsys : String → Option ℚ) (c : Collector)
    (files : List MFile) : Collector × Option String :=
  collectRecs fsys c (cycleRecords files)

/-- A fresh registry: no observation, no series. -/
def initMetrics : MetricsState :=
  { fetch_duration := []
    prs_fetched := fun _ => none
    fetch_errors := fun _ _ => 0
    last_fetch_timestamp := fun _ => none
    fetch_state := fun _ => none
    rate_limit_encounters := fun _ => 0
    network_retries := fun _ => 0
    output_file_size := fun _ => none }

/-- A fresh collector (`MetadataCollector.__init__`). -/
def initCollector : Collector :=
  { metrics := initMetrics, known_repos := fun _ => none }

/-! ### Derived per-record write descriptions

Pure descriptions of what one successful `update_metrics` call writes,
used to characterize whole cycles. -/

/-- Left-biased choice: the first write wins over the fallback. -/
def oOr {α : Type _} : Option α → Option α → Option α
  | some v, _ => some v
  | none, b => b

/-- The histogram observations one record contributes. -/
def durObs (m : MetadataRecord) : List (String × String × ℚ) :=
  match m.duration with
  | none => []
  | some v =>
    [(m.repository,
      if truthy (m.all.getD (.jbool false)) then "full" else "incremental",
      (toNum? v).getD 0)]

/-- The PRs-fetched gauge write of one record at label `r`. -/
def wPrs (m : MetadataRecord) (r : String) : Option ℚ :=
  if r = m.repository then m.pullRequestsFetched.bind toNum? else none

/-- The last-fetch-timestamp gauge write of one record at label `r`. -/
def wTs (m : MetadataRecord) (r : String) : Option ℚ :=
  if r = m.repository then
    match m.endTime with
    | some (.jstr s) => (fromisoformat (strReplace s "Z" "+00:00")).map timestampUTC
    | _ => none
  else none

/-- The fetch-state value of one record (the if/elif/else of lines
121-143). -/
def stateVal (m : MetadataRecord) : ℚ :=
  if truthy (m.error.getD .jnull) then 3
  else if truthy (m.partialFlag.getD .jnull) then 2
  else 1

/-- The fetch-state gauge write of one record at label `r` (every record
writes its repository's fetch state). -/
def wSt (m : MetadataRecord) (r : String) : Option ℚ :=
  if r = m.repository then some (stateVal m) else none

/-- The output-file-size gauge write of one record at label `r`. -/
def wOut (fsys : String → Option ℚ) (m : MetadataRecord) (r : String) : Option ℚ :=
  if r = m.repository then
    match m.outputFile with
    | some (.jstr p) => if truthy (.jstr p) then fsys p else none
    | _ => none
  else none

/-- The retry-counter increment of one record at label `r`. -/
def retryAmt (m : MetadataRecord) (r : String) : ℚ :=
  if r = m.repository then (m.retryCount.bind toNum?).getD 0 else 0

/-- The error-counter increment of one record at labels `(r, t)`. -/
def errA (m : MetadataRecord) (r t : String) : ℚ :=
  if truthy (m.error.getD .jnull) = true ∧ r = m.repository ∧
     t = errorType (pyStr (m.error.getD .jnull)) then 1 else 0

/-- The rate-limit-counter increment of one record at label `r`. -/
def rlA (m : MetadataRecord) (r : String) : ℚ :=
  if truthy (m.error.getD .jnull) = true ∧ r = m.repository ∧
     errorType (pyStr (m.error.getD .jnull)) = "rate_limit" then 1 else 0

/-- Whether the duration block succeeds. -/
def dOk (m : MetadataRecord) : Bool :=
  m.duration.all fun v => (toNum? v).isSome

/-- Whether the PRs-fetched block succeeds. -/
def pOk (m : MetadataRecord) : Bool :=
  m.pullRequestsFetched.all fun v => (toNum? v).isSome

/-- Whether the retry block succeeds. -/
def rOk (m : MetadataRecord) : Bool :=
  m.retryCount.all fun v =>
    match toNum? v with
    | some q => decide (0 ≤ q)
    | none => false

/-- Whether the output-file block succeeds. -/
def oOk (m : MetadataRecord) : Bool :=
  !truthy (m.outputFile.getD .jnull) ||
    (match m.outputFile with
     | some (.jstr _) => true
     | _ => false)

/-- Whether `update_metrics` runs to completion on this record
(independent of the registry state and of the filesystem). -/
def updOk (m : MetadataRecord) : Bool :=
  dOk m && pOk m && rOk m && oOk m

/-- Effect of a successful duration block. -/
def applyDuration (st : MetricsState) (m : MetadataRecord) : MetricsState :=
  { st with fetch_duration := st.fetch_duration ++ durObs m }

/-- Effect of a successful PRs-fetched block. -/
def applyPrs (st : MetricsState) (m : MetadataRecord) : MetricsState :=
  { st with prs_fetched := fun r => oOr (wPrs m r) (st.prs_fetched r) }

/-- Effect of the timestamp block. -/
def applyEndTime (st : MetricsState) (m : MetadataRecord) : MetricsState :=
  { st with last_fetch_timestamp := fun r => oOr (wTs m r) (st.last_fetch_timestamp r) }

/-- Effect of the fetch-state block. -/
def applyState (st : MetricsState) (m : MetadataRecord) : MetricsState :=
  { st with
      fetch_state := fun r => oOr (wSt m r) (st.fetch_state r)
      fetch_errors := fun r t => st.fetch_errors r t + errA m r t
      rate_limit_encounters := fun r => st.rate_limit_encounters r + rlA m r }

/-- Effect of a successful retry block. -/
def applyRetry (st : MetricsState) (m : MetadataRecord) : MetricsState :=
  { st with network_retries := fun r => st.network_retries r + retryAmt m r }

/-- Effect of a successful output-file block. -/
def applyOutput (fsys : String → Option ℚ) (st : MetricsState)
    (m : MetadataRecord) : MetricsState :=
  { st with output_file_size := fun r => oOr (wOut fsys m r) (st.output_file_size r) }

/-- Effect of one whole successful `update_metrics` call. -/
def applyU (fsys : String → Option ℚ) (st : MetricsState)
    (m : MetadataRecord) : MetricsState :=
  applyOutput fsys (applyRetry (applyState (applyEndTime (applyPrs (applyDuration st m) m) m) m) m) m

theorem oOr_none {α : Type _} (b : Option α) : oOr none b = b := rfl

theorem oOr_some {α : Type _} (v : α) (b : Option α) : oOr (some v) b = some v := rfl

theorem oOr_assoc {α : Type _} (a b c : Option α) :
    oOr (oOr a b) c = oOr a (oOr b c) := by
  cases a <;> rfl

theorem oOr_absorb {α : Type _} (a b : Option α) : oOr a (oOr a b) = oOr a b := by
  cases a <;> rfl

theorem oOr_isSome {α : Type _} (a b : Option α) :
    (oOr a b).isSome = (a.isSome || b.isSome) := by
  cases a <;> rfl

theorem stepDuration_eq (st : MetricsState) (m : MetadataRecord)
    (h : dOk m = true) : stepDuration st m = .ok (applyDuration st m) := by
  cases hd : m.duration with
  | none => simp [stepDuration, applyDuration, durObs, hd]
  | some v =>
    have hn : (toNum? v).isSome = true := by
      simpa [dOk, hd] using h
    cases hq : toNum? v with
    | none => rw [hq] at hn; simp at hn
    | some q => simp [stepDuration, applyDuration, durObs, hd, hq]

theorem stepDuration_err (st : MetricsState) (m : MetadataRecord)
    (h : dOk m = false) : ∃ e, stepDuration st m = .error e := by
  cases hd : m.duration with
  | none => simp [dOk, hd] at h
  | some v =>
    cases hq : toNum? v with
    | some q => simp [dOk, hd, hq] at h
    | none => exact ⟨"TypeError: observe", by simp [stepDuration, hd, hq]⟩

theorem stepPrs_eq (st : MetricsState) (m : MetadataRecord)
    (h : pOk m = true) : stepPrs st m = .ok (applyPrs st m) := by
  cases hd : m.pullRequestsFetched with
  | none =>
    suffices hs : applyPrs st m = st by simp [stepPrs, hd, hs]
    ext r
    all_goals simp [applyPrs, wPrs, hd, oOr]
  | some v =>
    have hn : (toNum? v).isSome = true := by
      simpa [pOk, hd] using h
    cases hq : toNum? v with
    | none => rw [hq] at hn; simp at hn
    | some q =>
      simp only [stepPrs, hd, hq, Except.ok.injEq]
      ext r
      all_goals simp only [applyPrs, gset]
      by_cases hr : r = m.repository <;> simp [hr, wPrs, hd, hq, oOr]

theorem stepPrs_err (st : MetricsState) (m : MetadataRecord)
    (h : pOk m = false) : ∃ e, stepPrs st m = .error e := by
  cases hd : m.pullRequestsFetched with
  | none => simp [pOk, hd] at h
  | some v =>
    cases hq : toNum? v with
    | some q => simp [pOk, hd, hq] at h
    | none => exact ⟨"ValueError: set", by simp [stepPrs, hd, hq]⟩

theorem stepEndTime_eq (st : MetricsState) (m : MetadataRecord) :
    stepEndTime st m = applyEndTime st m := by
  cases hd : m.endTime with
  | none =>
    simp only [stepEndTime, hd]
    ext r
    all_goals simp [applyEndTime, wTs, hd, oOr]
  | some v =>
    cases v with
    | jstr s =>
      cases hp : fromisoformat (strReplace s "Z" "+00:00") with
      | none =>
        simp only [stepEndTime, hd, hp]
        ext r
        all_goals simp [applyEndTime, wTs, hd, hp, oOr]
      | some t =>
        simp only [stepEndTime, hd, hp]
        ext r
        all_goals simp only [applyEndTime, gset]
        by_cases hr : r = m.repository <;> simp [hr, wTs, hd, hp, oOr]
    | jnull =>
      simp only [stepEndTime, hd]
      ext r
      all_goals simp [applyEndTime, wTs, hd, oOr]
    | jbool b =>
      simp only [stepEndTime, hd]
      ext r
      all_goals simp [applyEndTime, wTs, hd, oOr]
    | jnum q =>
      simp only [stepEndTime, hd]
      ext r
      all_goals simp [applyEndTime, wTs, hd, oOr]

theorem stepState_eq (st : MetricsState) (m : MetadataRecord) :
    stepState st m = applyState st m := by
  by_cases he : truthy (m.error.getD .jnull) = true
  · by_cases hrl : errorType (pyStr (m.error.getD .jnull)) = "rate_limit"
    · simp only [stepState, he, if_true, hrl, if_pos]
      ext r
      · simp [applyState]
      · simp [applyState]
      · simp only [cinc2, applyState]
        rename_i t
        simp only [errA, he, hrl, true_and]
        by_cases hc : r = m.repository ∧ t = "rate_limit" <;> simp [hc]
      · simp [applyState]
      · simp only [gset, applyState]
        by_cases hr : r = m.repository <;> simp [hr, wSt, oOr, stateVal, he]
      · simp only [cinc, applyState]
        by_cases hr : r = m.repository <;> simp [hr, rlA, he, hrl]
      · simp [applyState]
      · simp [applyState]
    · simp only [stepState, he, if_true, hrl, if_neg, if_false]
      ext r
      · simp [applyState]
      · simp [applyState]
      · simp only [cinc2, applyState]
        rename_i t
        by_cases hc : r = m.repository ∧ t = errorType (pyStr (m.error.getD .jnull)) <;>
          simp [hc, errA, he]
      · simp [applyState]
      · simp only [gset, applyState]
        by_cases hr : r = m.repository <;> simp [hr, wSt, oOr, stateVal, he]
      · simp only [applyState]
        by_cases hr : r = m.repository <;> simp [hr, rlA, he, hrl]
      · simp [applyState]
      · simp [applyState]
  · have he2 : truthy (m.error.getD .jnull) = false := by
      simpa using he
    by_cases hp : truthy (m.partialFlag.getD .jnull) = true
    · simp only [stepState, he2, Bool.false_eq_true, if_false, hp, if_true]
      ext r
      · simp [applyState]
      · simp [applyState]
      · simp [applyState, errA, he2]
      · simp [applyState]
      · simp only [gset, applyState]
        by_cases hr : r = m.repository <;> simp [hr, wSt, oOr, stateVal, he2, hp]
      · simp [applyState, rlA, he2]
      · simp [applyState]
      · simp [applyState]
    · have hp2 : truthy (m.partialFlag.getD .jnull) = false := by
        simpa using hp
      simp only [stepState, he2, Bool.false_eq_true, if_false, hp2]
      ext r
      · simp [applyState]
      · simp [applyState]
      · simp [applyState, errA, he2]
      · simp [applyState]
      · simp only [gset, applyState]
        by_cases hr : r = m.repository <;> simp [hr, wSt, oOr, stateVal, he2, hp2]
      · simp [applyState, rlA, he2]
      · simp [applyState]
      · simp [applyState]

theorem stepRetry_eq (st : MetricsState) (m : MetadataRecord)
    (h : rOk m = true) : stepRetry st m = .ok (applyRetry st m) := by
  cases hd : m.retryCount with
  | none =>
    suffices hs : applyRetry st m = st by simp [stepRetry, hd, hs]
    ext r
    all_goals simp [applyRetry, retryAmt, hd]
  | some v =>
    cases hq : toNum? v with
    | none => simp [rOk, hd, hq] at h
    | some q =>
      have hq0 : ¬ q < 0 := by
        have := h
        simp only [rOk, hd, Option.all_some, hq] at this
        simpa using this
      simp only [stepRetry, hd, hq]
      rw [if_neg hq0]
      simp only [Except.ok.injEq]
      ext r
      all_goals simp only [applyRetry, cinc]
      by_cases hr : r = m.repository <;> simp [hr, retryAmt, hd, hq]

theorem stepRetry_err (st : MetricsState) (m : MetadataRecord)
    (h : rOk m = false) : ∃ e, stepRetry st m = .error e := by
  cases hd : m.retryCount with
  | none => simp [rOk, hd] at h
  | some v =>
    cases hq : toNum? v with
    | none => exact ⟨"TypeError: inc", by simp [stepRetry, hd, hq]⟩
    | some q =>
      have hq0 : q < 0 := by
        have := h
        simp only [rOk, hd, Option.all_some, hq] at this
        simpa using this
      exact ⟨"ValueError: negative inc", by simp [stepRetry, hd, hq, hq0]⟩

theorem stepOutput_eq (fsys : String → Option ℚ) (st : MetricsState)
    (m : MetadataRecord) (h : oOk m = true) :
    stepOutput fsys st m = .ok (applyOutput fsys st m) := by
  by_cases ht : truthy (m.outputFile.getD .jnull) = true
  · cases hd : m.outputFile with
    | none => rw [hd] at ht; simp [truthy] at ht
    | some v =>
      cases v with
      | jstr p =>
        cases hf : fsys p with
        | none =>
          suffices hs : applyOutput fsys st m = st by simp [stepOutput, hd, ht, hs, hf]
          ext r
          all_goals simp only [applyOutput]
          by_cases hr : r = m.repository <;> simp [hr, wOut, hd, hf, oOr]
        | some size =>
          rw [hd] at ht
          simp only [Option.getD_some] at ht
          simp only [stepOutput, hd, Option.getD_some, ht, if_true, hf, Except.ok.injEq]
          ext r
          all_goals simp only [applyOutput, gset]
          by_cases hr : r = m.repository <;> simp [hr, wOut, hd, hf, oOr, ht]
      | jnull => rw [hd] at ht; simp [truthy] at ht
      | jbool b =>
        rw [hd] at ht
        simp only [oOk, hd] at h
        rw [ht] at h
        simp at h
      | jnum q =>
        rw [hd] at ht
        simp only [oOk, hd] at h
        rw [ht] at h
        simp at h
  · have ht2 : truthy (m.outputFile.getD .jnull) = false := by simpa using ht
    suffices hs : applyOutput fsys st m = st by simp [stepOutput, ht2, hs]
    ext r
    all_goals simp only [applyOutput]
    cases hd : m.outputFile with
    | none => simp [wOut, hd, oOr]
    | some v =>
      cases v with
      | jstr p =>
        rw [hd] at ht2
        simp only [Option.getD_some] at ht2
        by_cases hr : r = m.repository <;> simp [hr, wOut, hd, ht2, oOr]
      | jnull => simp [wOut, hd, oOr]
      | jbool b => simp [wOut, hd, oOr]
      | jnum q => simp [wOut, hd, oOr]

theorem stepOutput_err (fsys : String → Option ℚ) (st : MetricsState)
    (m : MetadataRecord) (h : oOk m = false) :
    ∃ e, stepOutput fsys st m = .error e := by
  have ht : truthy (m.outputFile.getD .jnull) = true := by
    by_contra hc
    simp only [oOk] at h
    rw [Bool.not_eq_true] at hc
    rw [hc] at h
    simp at h
  cases hd : m.outputFile with
  | none => rw [hd] at ht; simp [truthy] at ht
  | some v =>
    cases v with
    | jstr p => simp [oOk, hd] at h
    | jnull => rw [hd] at ht; simp [truthy] at ht
    | jbool b =>
      refine ⟨"TypeError: Path", ?_⟩
      rw [hd] at ht
      simp only [Option.getD_some] at ht
      simp [stepOutput, hd, ht]
    | jnum q =>
      refine ⟨"TypeError: Path", ?_⟩
      rw [hd] at ht
      simp only [Option.getD_some] at ht
      simp [stepOutput, hd, ht]

theorem ok_bind {α β : Type _} (a : α) (f : α → Except String β) :
    (Except.ok a >>= f) = f a := rfl

theorem err_bind {α β : Type _} (e : String) (f : α → Except String β) :
    ((Except.error e : Except String α) >>= f) = .error e := rfl

theorem update_metrics_eq (fsys : String → Option ℚ) (st : MetricsState)
    (m : MetadataRecord) (h : updOk m = true) :
    update_metrics fsys st m = .ok (applyU fsys st m) := by
  have hh := h
  simp only [updOk, Bool.and_eq_true] at hh
  obtain ⟨⟨⟨h1, h2⟩, h3⟩, h4⟩ := hh
  simp only [update_metrics, stepDuration_eq st m h1, ok_bind]
  simp only [stepPrs_eq _ m h2, ok_bind]
  simp only [stepEndTime_eq, stepState_eq]
  simp only [stepRetry_eq _ m h3, ok_bind]
  simp only [stepOutput_eq fsys _ m h4]
  rfl

theorem update_metrics_err (fsys : String → Option ℚ) (st : MetricsState)
    (m : MetadataRecord) (h : updOk m = false) :
    ∃ e, update_metrics fsys st m = .error e := by
  by_cases h1 : dOk m = true
  · by_cases h2 : pOk m = true
    · by_cases h3 : rOk m = true
      · have h4 : oOk m = false := by
          simp only [updOk, h1, h2, h3, Bool.true_and] at h
          exact h
        obtain ⟨e, he⟩ :=
          stepOutput_err fsys
            (applyRetry (applyState (applyEndTime (applyPrs (applyDuration st m) m) m) m) m) m h4
        refine ⟨e, ?_⟩
        simp only [update_metrics, stepDuration_eq st m h1, ok_bind,
          stepPrs_eq _ m h2, stepEndTime_eq, stepState_eq,
          stepRetry_eq _ m h3, he]
      · obtain ⟨e, he⟩ :=
          stepRetry_err (applyState (applyEndTime (applyPrs (applyDuration st m) m) m) m) m
            (by simpa using h3)
        refine ⟨e, ?_⟩
        simp only [update_metrics, stepDuration_eq st m h1, ok_bind,
          stepPrs_eq _ m h2, stepEndTime_eq, stepState_eq, he, err_bind]
    · obtain ⟨e, he⟩ := stepPrs_err (applyDuration st m) m (by simpa using h2)
      refine ⟨e, ?_⟩
      simp only [update_metrics, stepDuration_eq st m h1, ok_bind, he, err_bind]
  · obtain ⟨e, he⟩ := stepDuration_err st m (by simpa using h1)
    refine ⟨e, ?_⟩
    simp only [update_metrics, he, err_bind]

theorem update_metrics_isOk (fsys : String → Option ℚ) (st : MetricsState)
    (m : MetadataRecord) :
    (∃ st2, update_metrics fsys st m = .ok st2) ↔ updOk m = true := by
  constructor
  · rintro ⟨st2, h⟩
    by_contra hc
    obtain ⟨e, he⟩ := update_metrics_err fsys st m (by simpa using hc)
    rw [he] at h
    simp at h
  · intro h
    exact ⟨_, update_metrics_eq fsys st m h⟩

/-! ### Whole-cycle characterization -/

/-- The pure effect of the per-record loop when every record's update
succeeds. -/
def foldCollector (fsys : String → Option ℚ) (c : Collector) :
    List MetadataRecord → Collector
  | [] => c
  | m :: ms =>
    foldCollector fsys
      { metrics := applyU fsys c.metrics m
        known_repos := fun r => if r = m.repository then some m else c.known_repos r }
      ms

/-- Last write of a gauge by a record list at a label (later records
override earlier ones). -/
def lastW (w : MetadataRecord → String → Option ℚ) :
    List MetadataRecord → String → Option ℚ
  | [], _ => none
  | m :: ms, r => oOr (lastW w ms r) (w m r)

/-- Last record stored for a repository id by the per-record loop. -/
def lastRec : List MetadataRecord → String → Option MetadataRecord
  | [], _ => none
  | m :: ms, r => oOr (lastRec ms r) (if r = m.repository then some m else none)

/-- Total counter increment contributed by a record list at a label. -/
def sumA {α : Type _} (A : MetadataRecord → α → ℚ) :
    List MetadataRecord → α → ℚ
  | [], _ => 0
  | m :: ms, x => A m x + sumA A ms x

theorem runRecords_none_iff (fsys : String → Option ℚ) (c : Collector)
    (recs : List MetadataRecord) :
    (runRecords fsys c recs).2 = none ↔ ∀ m ∈ recs, updOk m = true := by
  induction recs generalizing c with
  | nil => simp [runRecords]
  | cons m ms ih =>
    cases hu : update_metrics fsys c.metrics m with
    | error e =>
      have hm : ¬ updOk m = true := by
        intro hc
        have h2 := update_metrics_eq fsys c.metrics m hc
        rw [hu] at h2
        simp at h2
      simp [runRecords, hu, List.forall_mem_cons, hm]
    | ok st2 =>
      have hm : updOk m = true := by
        by_contra hc
        obtain ⟨e, he⟩ := update_metrics_err fsys c.metrics m (by simpa using hc)
        rw [hu] at he
        simp at he
      simp [runRecords, hu, ih, List.forall_mem_cons, hm]

theorem runRecords_eq_fold (fsys : String → Option ℚ) (c : Collector)
    (recs : List MetadataRecord) (h : ∀ m ∈ recs, updOk m = true) :
    runRecords fsys c recs = (foldCollector fsys c recs, none) := by
  induction recs generalizing c with
  | nil => rfl
  | cons m ms ih =>
    have hm : updOk m = true := h m (by simp)
    simp only [runRecords, update_metrics_eq fsys c.metrics m hm]
    rw [foldCollector]
    exact ih _ fun m2 hm2 => h m2 (by simp [hm2])

theorem fold_gauge (fsys : String → Option ℚ)
    (g : MetricsState → String → Option ℚ) (w : MetadataRecord → String → Option ℚ)
    (hg : ∀ st m2 r, g (applyU fsys st m2) r = oOr (w m2 r) (g st r)) :
    ∀ (recs : List MetadataRecord) (c : Collector) (r : String),
      g (foldCollector fsys c recs).metrics r = oOr (lastW w recs r) (g c.metrics r) := by
  intro recs
  induction recs with
  | nil => intro c r; simp [foldCollector, lastW, oOr]
  | cons m ms ih =>
    intro c r
    rw [foldCollector, ih, hg, ← oOr_assoc, ← lastW]

theorem fold_counter (fsys : String → Option ℚ) {α : Type _}
    (g : MetricsState → α → ℚ) (A : MetadataRecord → α → ℚ)
    (hg : ∀ st m2 x, g (applyU fsys st m2) x = g st x + A m2 x) :
    ∀ (recs : List MetadataRecord) (c : Collector) (x : α),
      g (foldCollector fsys c recs).metrics x = g c.metrics x + sumA A recs x := by
  intro recs
  induction recs with
  | nil => intro c x; simp [foldCollector, sumA]
  | cons m ms ih =>
    intro c x
    rw [foldCollector, ih, hg, sumA, add_assoc]

theorem fold_known (fsys : String → Option ℚ) :
    ∀ (recs : List MetadataRecord) (c : Collector) (r : String),
      (foldCollector fsys c recs).known_repos r = oOr (lastRec recs r) (c.known_repos r) := by
  intro recs
  induction recs with
  | nil => intro c r; simp [foldCollector, lastRec, oOr]
  | cons m ms ih =>
    intro c r
    rw [foldCollector, ih]
    simp only [lastRec]
    by_cases hr : r = m.repository <;>
      cases hL : lastRec ms r <;> simp [hr, hL, oOr]

/-- Two-label counter increment total. -/
def sumA2 (A : MetadataRecord → String → String → ℚ) :
    List MetadataRecord → String → String → ℚ
  | [], _, _ => 0
  | m :: ms, r, t => A m r t + sumA2 A ms r t

theorem sumA2_eq_sumA (A : MetadataRecord → String → String → ℚ)
    (recs : List MetadataRecord) (r t : String) :
    sumA2 A recs r t = sumA (fun m p => A m p.1 p.2) recs (r, t) := by
  induction recs with
  | nil => rfl
  | cons m ms ih => simp [sumA2, sumA, ih]

theorem applyU_prs (fsys : String → Option ℚ) (st : MetricsState)
    (m : MetadataRecord) (r : String) :
    (applyU fsys st m).prs_fetched r = oOr (wPrs m r) (st.prs_fetched r) := rfl

theorem applyU_ts (fsys : String → Option ℚ) (st : MetricsState)
    (m : MetadataRecord) (r : String) :
    (applyU fsys st m).last_fetch_timestamp r = oOr (wTs m r) (st.last_fetch_timestamp r) := rfl

theorem applyU_state (fsys : String → Option ℚ) (st : MetricsState)
    (m : MetadataRecord) (r : String) :
    (applyU fsys st m).fetch_state r = oOr (wSt m r) (st.fetch_state r) := rfl

theorem applyU_out (fsys : String → Option ℚ) (st : MetricsState)
    (m : MetadataRecord) (r : String) :
    (applyU fsys st m).output_file_size r = oOr (wOut fsys m r) (st.output_file_size r) := rfl

theorem applyU_retries (fsys : String → Option ℚ) (st : MetricsState)
    (m : MetadataRecord) (r : String) :
    (applyU fsys st m).network_retries r = st.network_retries r + retryAmt m r := rfl

theorem applyU_errors (fsys : String → Option ℚ) (st : MetricsState)
    (m : MetadataRecord) (r t : String) :
    (applyU fsys st m).fetch_errors r t = st.fetch_errors r t + errA m r t := rfl

theorem applyU_rl (fsys : String → Option ℚ) (st : MetricsState)
    (m : MetadataRecord) (r : String) :
    (applyU fsys st m).rate_limit_encounters r = st.rate_limit_encounters r + rlA m r := rfl

theorem collect_none_iff (fsys : String → Option ℚ) (c : Collector)
    (files : List MFile) :
    (collect_metrics fsys c files).2 = none ↔
      ∀ m ∈ cycleRecords files, updOk m = true := by
  rw [← runRecords_none_iff fsys c (cycleRecords files)]
  rcases hrun : runRecords fsys c (cycleRecords files) with ⟨c2, err⟩
  cases err with
  | none => simp [collect_metrics, collectRecs, hrun]
  | some e => simp [collect_metrics, collectRecs, hrun]

theorem collect_char (fsys : String → Option ℚ) (c : Collector)
    (files : List MFile) (h : (collect_metrics fsys c files).2 = none) :
    (∀ r, (collect_metrics fsys c files).1.known_repos r
        = oOr (lastRec (cycleRecords files) r) (c.known_repos r)) ∧
    (∀ r, (collect_metrics fsys c files).1.metrics.prs_fetched r
        = oOr (lastW wPrs (cycleRecords files) r) (c.metrics.prs_fetched r)) ∧
    (∀ r, (collect_metrics fsys c files).1.metrics.last_fetch_timestamp r
        = oOr (lastW wTs (cycleRecords files) r) (c.metrics.last_fetch_timestamp r)) ∧
    (∀ r, (collect_metrics fsys c files).1.metrics.output_file_size r
        = oOr (lastW (wOut fsys) (cycleRecords files) r) (c.metrics.output_file_size r)) ∧
    (∀ r, (collect_metrics fsys c files).1.metrics.fetch_state r
        = if (oOr (lastRec (cycleRecords files) r) (c.known_repos r)).isSome = true ∧
             r ∉ (cycleRecords files).map (fun m => m.repository)
          then some 0
          else oOr (lastW wSt (cycleRecords files) r) (c.metrics.fetch_state r)) ∧
    (∀ r, (collect_metrics fsys c files).1.metrics.network_retries r
        = c.metrics.network_retries r + sumA retryAmt (cycleRecords files) r) ∧
    (∀ r t, (collect_metrics fsys c files).1.metrics.fetch_errors r t
        = c.metrics.fetch_errors r t + sumA2 errA (cycleRecords files) r t) ∧
    (∀ r, (collect_metrics fsys c files).1.metrics.rate_limit_encounters r
        = c.metrics.rate_limit_encounters r + sumA rlA (cycleRecords files) r) := by
  have hall : ∀ m ∈ cycleRecords files, updOk m = true :=
    (collect_none_iff fsys c files).mp h
  have hfold : runRecords fsys c (cycleRecords files)
      = (foldCollector fsys c (cycleRecords files), none) :=
    runRecords_eq_fold fsys c (cycleRecords files) hall
  have hcol : collect_metrics fsys c files
      = ({ metrics := { (foldCollector fsys c (cycleRecords files)).metrics with
              fetch_state := fun r =>
                if ((foldCollector fsys c (cycleRecords files)).known_repos r).isSome = true ∧
                   r ∉ (cycleRecords files).map (fun m => m.repository) then some 0
                else (foldCollector fsys c (cycleRecords files)).metrics.fetch_state r }
           known_repos := (foldCollector fsys c (cycleRecords files)).known_repos }, none) := by
    simp only [collect_metrics, collectRecs, hfold]
  refine ⟨?_, ?_, ?_, ?_, ?_, ?_, ?_, ?_⟩
  · intro r
    rw [hcol]
    exact fold_known fsys (cycleRecords files) c r
  · intro r
    rw [hcol]
    exact fold_gauge fsys (fun st => st.prs_fetched) wPrs
      (fun st m2 r2 => applyU_prs fsys st m2 r2) (cycleRecords files) c r
  · intro r
    rw [hcol]
    exact fold_gauge fsys (fun st => st.last_fetch_timestamp) wTs
      (fun st m2 r2 => applyU_ts fsys st m2 r2) (cycleRecords files) c r
  · intro r
    rw [hcol]
    exact fold_gauge fsys (fun st => st.output_file_size) (wOut fsys)
      (fun st m2 r2 => applyU_out fsys st m2 r2) (cycleRecords files) c r
  · intro r
    rw [hcol]
    have hk := fold_known fsys (cycleRecords files) c r
    have hs := fold_gauge fsys (fun st => st.fetch_state) wSt
      (fun st m2 r2 => applyU_state fsys st m2 r2) (cycleRecords files) c r
    simp only [hk, hs]
  · intro r
    rw [hcol]
    exact fold_counter fsys (fun st => st.network_retries) retryAmt
      (fun st m2 x => applyU_retries fsys st m2 x) (cycleRecords files) c r
  · intro r t
    rw [hcol, sumA2_eq_sumA]
    exact fold_counter fsys (fun st p => st.fetch_errors p.1 p.2)
      (fun m2 p => errA m2 p.1 p.2)
      (fun st m2 x => applyU_errors fsys st m2 x.1 x.2) (cycleRecords files) c (r, t)
  · intro r
    rw [hcol]
    exact fold_counter fsys (fun st => st.rate_limit_encounters) rlA
      (fun st m2 x => applyU_rl fsys st m2 x) (cycleRecords files) c r

theorem lastRec_of_not_mem (recs : List MetadataRecord) (r : String)
    (h : r ∉ recs.map (fun m => m.repository)) : lastRec recs r = none := by
  induction recs with
  | nil => rfl
  | cons m ms ih =>
    simp only [List.map_cons, List.mem_cons, not_or] at h
    rw [lastRec, ih h.2, if_neg h.1]
    rfl

/-! ### The claims -/

theorem collect_absent_zero (fsys : String → Option ℚ) (c : Collector)
    (files : List MFile) (r : String)
    (hknown : (c.known_repos r).isSome = true)
    (habsent : r ∉ (cycleRecords files).map (fun m => m.repository))
    (hok : (collect_metrics fsys c files).2 = none) :
    (collect_metrics fsys c files).1.metrics.fetch_state r = some 0 ∧
    ((collect_metrics fsys c files).1.known_repos r).isSome = true := by
  obtain ⟨hk, _, _, _, hst, _, _, _⟩ := collect_char fsys c files hok
  have hcond : (oOr (lastRec (cycleRecords files) r) (c.known_repos r)).isSome = true := by
    rw [oOr_isSome, hknown]
    simp
  constructor
  · rw [hst r, if_pos ⟨hcond, habsent⟩]
  · rw [hk r, oOr_isSome, hknown]
    simp

/-- C1: a repository recorded in `known_repos` in an earlier cycle whose
identifier is absent from this cycle's successfully parsed record set
has its fetch-state gauge equal to 0 (NEVER_FETCHED) once the cycle
completes, whatever the gauge held before, and its `known_repos` entry
survives the cycle (so the zeroing recurs every cycle until a record for
it reappears). -/
theorem claim_C1 (fsys : String → Option ℚ) (c : Collector)
    (files : List MFile) (r : String)
    (hknown : (c.known_repos r).isSome = true)
    (habsent : r ∉ (cycleRecords files).map (fun m => m.repository))
    (hok : (collect_metrics fsys c files).2 = none) :
    (collect_metrics fsys c files).1.metrics.fetch_state r = some 0 ∧
    ((collect_metrics fsys c files).1.known_repos r).isSome = true :=
  collect_absent_zero fsys c files r hknown habsent hok

def c1rec : MetadataRecord := { repository := "acme/widgets" }

def c1col : Collector :=
  { metrics := initMetrics
    known_repos := fun r => if r = "acme/widgets" then some c1rec else none }

theorem claim_C1_witness :
    (c1col.known_repos "acme/widgets").isSome = true ∧
    "acme/widgets" ∉ (cycleRecords []).map (fun m => m.repository) ∧
    (collect_metrics (fun _ => none) c1col []).2 = none ∧
    ((collect_metrics (fun _ => none) c1col []).1.metrics.fetch_state "acme/widgets" = some 0 ∧
     ((collect_metrics (fun _ => none) c1col []).1.known_repos "acme/widgets").isSome = true) :=
  ⟨by decide, by decide, rfl,
   claim_C1 (fun _ => none) c1col [] "acme/widgets" (by decide) (by decide) rfl⟩

/-- C2: a record whose `error` is a non-empty string sets the
fetch-state gauge of its repository to FAILED(3); the error class is the
case-insensitive substring match in priority order rate-limit, timeout,
network, first match wins, with UNKNOWN when nothing matches (so a
message with both "rate limit" and "timeout" classifies as rate-limit);
the labelled error counter rises by exactly 1 at that class, and the
dedicated rate-limit counter rises by exactly 1 when and only when the
class is rate-limit. -/
theorem claim_C2 (fsys : String → Option ℚ) (st st2 : MetricsState)
    (m : MetadataRecord) (s : String)
    (he : m.error = some (.jstr s)) (hs : s ≠ "")
    (h : update_metrics fsys st m = .ok st2) :
    st2.fetch_state m.repository = some 3 ∧
    st2.fetch_errors m.repository (errorType s)
      = st.fetch_errors m.repository (errorType s) + 1 ∧
    (containsSubStr (lowerStr s) "rate limit" = true → errorType s = "rate_limit") ∧
    (containsSubStr (lowerStr s) "rate limit" = false →
      containsSubStr (lowerStr s) "timeout" = true → errorType s = "timeout") ∧
    (containsSubStr (lowerStr s) "rate limit" = false →
      containsSubStr (lowerStr s) "timeout" = false →
      containsSubStr (lowerStr s) "network" = true → errorType s = "network") ∧
    (containsSubStr (lowerStr s) "rate limit" = false →
      containsSubStr (lowerStr s) "timeout" = false →
      containsSubStr (lowerStr s) "network" = false → errorType s = "unknown") ∧
    (containsSubStr (lowerStr s) "rate limit" = true →
      containsSubStr (lowerStr s) "timeout" = true → errorType s = "rate_limit") ∧
    (errorType s = "rate_limit" →
      st2.rate_limit_encounters m.repository = st.rate_limit_encounters m.repository + 1) ∧
    (errorType s ≠ "rate_limit" →
      st2.rate_limit_encounters m.repository = st.rate_limit_encounters m.repository) := by
  have hok : updOk m = true := (update_metrics_isOk fsys st m).mp ⟨st2, h⟩
  have heq := update_metrics_eq fsys st m hok
  rw [h] at heq
  simp only [Except.ok.injEq] at heq
  subst heq
  have htr2 : truthy (JValue.jstr s) = true := by
    simp [truthy, hs]
  have htr : truthy (m.error.getD .jnull) = true := by
    simp [he, htr2]
  refine ⟨?_, ?_, ?_, ?_, ?_, ?_, ?_, ?_, ?_⟩
  · rw [applyU_state]
    simp [wSt, stateVal, htr, oOr]
  · rw [applyU_errors]
    simp [errA, htr, htr2, he, pyStr]
  · intro h1
    simp [errorType, h1]
  · intro h1 h2
    simp [errorType, h1, h2]
  · intro h1 h2 h3
    simp [errorType, h1, h2, h3]
  · intro h1 h2 h3
    simp [errorType, h1, h2, h3]
  · intro h1 h2
    simp [errorType, h1]
  · intro h1
    rw [applyU_rl]
    simp [rlA, htr, htr2, he, pyStr, h1]
  · intro h1
    rw [applyU_rl]
    simp [rlA, htr, htr2, he, pyStr, h1]

def c2rec : MetadataRecord :=
  { repository := "acme/widgets"
    error := some (.jstr "GitHub rate limit exceeded, also a timeout") }

def c2st : MetricsState :=
  match update_metrics (fun _ => none) initMetrics c2rec with
  | .ok s => s
  | .error _ => initMetrics

theorem claim_C2_witness :
    c2rec.error = some (.jstr "GitHub rate limit exceeded, also a timeout") ∧
    "GitHub rate limit exceeded, also a timeout" ≠ "" ∧
    update_metrics (fun _ => none) initMetrics c2rec = .ok c2st ∧
    c2st.fetch_state c2rec.repository = some 3 ∧
    errorType "GitHub rate limit exceeded, also a timeout" = "rate_limit" := by
  have hc2 := claim_C2 (fun _ => none) initMetrics c2st c2rec
    "GitHub rate limit exceeded, also a timeout" rfl (by decide) rfl
  exact ⟨rfl, by decide, rfl, hc2.1,
    hc2.2.2.2.2.2.2.1 (by decide) (by decide)⟩

/-- C3: a processed record overwrites the fetch-state gauge of its
repository with exactly one of FAILED(3) when `error` is a present
non-empty string, else PARTIAL(2) when `partial` is true, else
SUCCESS(1); in particular no error and no partial flag give SUCCESS. -/
theorem claim_C3 (fsys : String → Option ℚ) (st st2 : MetricsState)
    (m : MetadataRecord) (eo : Option String) (po : Option Bool)
    (he : m.error = eo.map JValue.jstr)
    (hp : m.partialFlag = po.map JValue.jbool)
    (h : update_metrics fsys st m = .ok st2) :
    st2.fetch_state m.repository =
      some (if eo.getD "" ≠ "" then 3 else if po.getD false = true then 2 else 1) := by
  have hok : updOk m = true := (update_metrics_isOk fsys st m).mp ⟨st2, h⟩
  have heq := update_metrics_eq fsys st m hok
  rw [h] at heq
  simp only [Except.ok.injEq] at heq
  subst heq
  rw [applyU_state]
  simp only [wSt, if_pos rfl, oOr]
  cases eo with
  | none =>
    cases po with
    | none => simp [stateVal, he, hp, truthy]
    | some b => cases b <;> simp [stateVal, he, hp, truthy]
  | some e2 =>
    by_cases hee : e2 = ""
    · subst hee
      cases po with
      | none => simp [stateVal, he, hp, truthy]
      | some b => cases b <;> simp [stateVal, he, hp, truthy]
    · simp [stateVal, he, hp, truthy, hee]

def c3rec : MetadataRecord := { repository := "acme/widgets" }

def c3st : MetricsState :=
  match update_metrics (fun _ => none) initMetrics c3rec with
  | .ok s => s
  | .error _ => initMetrics

theorem claim_C3_witness :
    c3rec.error = Option.map JValue.jstr none ∧
    c3rec.partialFlag = Option.map JValue.jbool none ∧
    update_metrics (fun _ => none) initMetrics c3rec = .ok c3st ∧
    c3st.fetch_state c3rec.repository = some 1 :=
  ⟨rfl, rfl, rfl,
   claim_C3 (fun _ => none) initMetrics c3st c3rec none none rfl rfl rfl⟩

theorem cycleRecords_drop (pre post : List MFile) (bad : MFile)
    (hbad : bad.content = none) :
    cycleRecords (pre ++ bad :: post) = cycleRecords (pre ++ post) := by
  simp only [cycleRecords, scan_metadata_files, List.filter_append, List.filter_cons]
  cases hm : ("_metadata.json".toList.isSuffixOf bad.name.toList) <;>
    simp [hm, List.filterMap_append, List.filterMap_cons, parse_metadata, hbad]

/-- C4: an unreadable or malformed record is skipped in isolation: a
cycle over a directory containing it is identical (registry, table and
raised-exception behaviour) to the cycle over the same directory without
that file, so all other records apply exactly as they would and the
cycle never aborts because of it. -/
theorem claim_C4 (fsys : String → Option ℚ) (c : Collector)
    (pre post : List MFile) (bad : MFile) (hbad : bad.content = none) :
    collect_metrics fsys c (pre ++ bad :: post) = collect_metrics fsys c (pre ++ post) := by
  unfold collect_metrics
  rw [cycleRecords_drop pre post bad hbad]

def c4bad : MFile := { name := "broken_metadata.json", content := none }

def c4good1 : MFile := { name := "aaa_metadata.json", content := some {} }

def c4good2 : MFile := { name := "bbb_metadata.json", content := some {} }

theorem claim_C4_witness :
    c4bad.content = none ∧
    collect_metrics (fun _ => none) initCollector [c4good1, c4bad, c4good2]
      = collect_metrics (fun _ => none) initCollector [c4good1, c4good2] :=
  ⟨rfl, claim_C4 (fun _ => none) initCollector [c4good1] [c4good2] c4bad rfl⟩

/-- C5: re-running a cycle on an unchanged directory (and unchanged
output-file sizes) completes again and leaves the four gauges
(items-fetched, last-fetch-timestamp, fetch-state, output-file-size) at
the values of the first run, while each run moves the counters only by
the amounts explicit in the records: the retry counter per repository
by the sum of its records' `retryCount`, the labelled error counter by
1 per failing record at its class, the rate-limit counter by 1 per
rate-limited failing record. -/
theorem claim_C5 (fsys : String → Option ℚ) (c c1 : Collector)
    (files : List MFile)
    (h1 : collect_metrics fsys c files = (c1, none)) :
    (collect_metrics fsys c1 files).2 = none ∧
    (∀ r, (collect_metrics fsys c1 files).1.metrics.prs_fetched r
        = c1.metrics.prs_fetched r) ∧
    (∀ r, (collect_metrics fsys c1 files).1.metrics.last_fetch_timestamp r
        = c1.metrics.last_fetch_timestamp r) ∧
    (∀ r, (collect_metrics fsys c1 files).1.metrics.fetch_state r
        = c1.metrics.fetch_state r) ∧
    (∀ r, (collect_metrics fsys c1 files).1.metrics.output_file_size r
        = c1.metrics.output_file_size r) ∧
    (∀ r, c1.metrics.network_retries r
        = c.metrics.network_retries r + sumA retryAmt (cycleRecords files) r) ∧
    (∀ r, (collect_metrics fsys c1 files).1.metrics.network_retries r
        = c1.metrics.network_retries r + sumA retryAmt (cycleRecords files) r) ∧
    (∀ r t, (collect_metrics fsys c1 files).1.metrics.fetch_errors r t
        = c1.metrics.fetch_errors r t + sumA2 errA (cycleRecords files) r t) ∧
    (∀ r, (collect_metrics fsys c1 files).1.metrics.rate_limit_encounters r
        = c1.metrics.rate_limit_encounters r + sumA rlA (cycleRecords files) r) := by
  have h1b : (collect_metrics fsys c files).2 = none := by rw [h1]
  have h1a : (collect_metrics fsys c files).1 = c1 := by rw [h1]
  have hall := (collect_none_iff fsys c files).mp h1b
  have h2b : (collect_metrics fsys c1 files).2 = none :=
    (collect_none_iff fsys c1 files).mpr hall
  obtain ⟨hk1, hprs1, hts1, hout1, hst1, hnr1, hfe1, hrl1⟩ := collect_char fsys c files h1b
  rw [h1a] at hk1 hprs1 hts1 hout1 hst1 hnr1 hfe1 hrl1
  obtain ⟨hk2, hprs2, hts2, hout2, hst2, hnr2, hfe2, hrl2⟩ := collect_char fsys c1 files h2b
  refine ⟨h2b, ?_, ?_, ?_, ?_, ?_, ?_, ?_, ?_⟩
  · intro r
    rw [hprs2 r, hprs1 r, oOr_absorb]
  · intro r
    rw [hts2 r, hts1 r, oOr_absorb]
  · intro r
    have hcond : oOr (lastRec (cycleRecords files) r) (c1.known_repos r)
        = oOr (lastRec (cycleRecords files) r) (c.known_repos r) := by
      rw [hk1 r, oOr_absorb]
    rw [hst2 r, hcond, hst1 r]
    by_cases hcd : (oOr (lastRec (cycleRecords files) r) (c.known_repos r)).isSome = true ∧
        r ∉ (cycleRecords files).map (fun m => m.repository)
    · rw [if_pos hcd, if_pos hcd]
    · rw [if_neg hcd, if_neg hcd, oOr_absorb]
  · intro r
    rw [hout2 r, hout1 r, oOr_absorb]
  · intro r
    exact hnr1 r
  · intro r
    exact hnr2 r
  · intro r t
    exact hfe2 r t
  · intro r
    exact hrl2 r

def c5file : MFile :=
  { name := "acme_widgets_metadata.json"
    content := some { error := some (.jstr "rate limit hit")
                      retryCount := some (.jnum 2) } }

def c5c1 : Collector :=
  (collect_metrics (fun _ => none) initCollector [c5file]).1

theorem claim_C5_witness :
    collect_metrics (fun _ => none) initCollector [c5file] = (c5c1, none) ∧
    (collect_metrics (fun _ => none) c5c1 [c5file]).2 = none ∧
    (collect_metrics (fun _ => none) c5c1 [c5file]).1.metrics.fetch_state "acme/widgets"
      = c5c1.metrics.fetch_state "acme/widgets" ∧
    (collect_metrics (fun _ => none) c5c1 [c5file]).1.metrics.network_retries "acme/widgets"
      = c5c1.metrics.network_retries "acme/widgets"
        + sumA retryAmt (cycleRecords [c5file]) "acme/widgets" := by
  have h5 := claim_C5 (fun _ => none) initCollector c5c1 [c5file] rfl
  exact ⟨rfl, h5.1, h5.2.2.2.1 "acme/widgets", h5.2.2.2.2.2.2.1 "acme/widgets"⟩

def c6file : MFile :=
  { name := "acme_widgets_metadata.json"
    content := some { all := some (.jbool true)
                      duration := some (.jnum 12.5)
                      pullRequestsFetched := some (.jnum 340)
                      endTime := some (.jstr "2024-01-15T10:30:00Z") } }

/-- C6: one cycle over a directory holding exactly
`acme_widgets_metadata.json` with all=true, duration=12.5,
pullRequestsFetched=340, endTime=2024-01-15T10:30:00Z completes and
yields one histogram observation of 12.5 labelled (acme/widgets, full),
items-fetched gauge 340, last-fetch-timestamp gauge 1705314600 (the
epoch seconds of that endTime), and fetch-state gauge 1 (SUCCESS); the
repository id comes from the filename with underscores turned into
slashes. -/
theorem claim_C6 :
    (collect_metrics (fun _ => none) initCollector [c6file]).2 = none ∧
    (collect_metrics (fun _ => none) initCollector [c6file]).1.metrics.fetch_duration
      = [("acme/widgets", "full", 12.5)] ∧
    (collect_metrics (fun _ => none) initCollector [c6file]).1.metrics.prs_fetched
      "acme/widgets" = some 340 ∧
    (collect_metrics (fun _ => none) initCollector [c6file]).1.metrics.last_fetch_timestamp
      "acme/widgets" = some ((1705314600 : Int) : ℚ) ∧
    (collect_metrics (fun _ => none) initCollector [c6file]).1.metrics.fetch_state
      "acme/widgets" = some 1 ∧
    deriveRepository c6file.name = "acme/widgets" := by
  exact ⟨rfl, rfl, rfl, rfl, rfl, by decide⟩

def c8file : MFile := { name := "_metadata.json", content := some {} }

/-- C8 counterexample: the file named `_metadata.json` matches the scan
pattern and parses, yet its derived repository identifier is the empty
string — an accepted record with empty `repository`, refuting the
claimed invariant. -/
theorem claim_C8_cex :
    c8file ∈ scan_metadata_files [c8file] ∧
    (parse_metadata c8file).map (fun m => m.repository) = some "" := by
  exact ⟨by decide, by decide⟩

theorem pyReplaceAux_length (pat rep : List Char) (hlen : pat.length = rep.length) :
    ∀ (n : Nat) (s : List Char), (pyReplaceAux n s pat rep).length = s.length := by
  intro n
  induction n with
  | zero => intro s; rfl
  | succ n ih =>
    intro s
    by_cases hp : pat = []
    · simp [pyReplaceAux, hp]
    · by_cases hpre : pat.isPrefixOf s
      · have hle : pat.length ≤ s.length :=
          (List.isPrefixOf_iff_prefix.mp hpre).length_le
        simp only [pyReplaceAux, hp, if_false, hpre, if_true, List.length_append, ih,
          List.length_drop]
        omega
      · cases s with
        | nil => simp [pyReplaceAux, hp, hpre]
        | cons cb t => simp [pyReplaceAux, hp, hpre, ih]

theorem strReplace_underscore_length (s : String) :
    (strReplace s "_" "/").length = s.length := by
  show (pyReplace s.toList "_".toList "/".toList).length = s.length
  rw [pyReplace, pyReplaceAux_length]
  · rfl
  · rfl

/-- C8 amended: for every accepted record, the derived repository
identifier is non-empty provided that deleting every occurrence of
`_metadata` from the filename stem leaves a non-empty string; a file
whose stem erases to nothing (such as `_metadata.json`) is accepted with
the empty identifier. -/
theorem claim_C8_amended (f : MFile) (m : MetadataRecord)
    (hacc : parse_metadata f = some m)
    (hne : strReplace (stemOf f.name) "_metadata" "" ≠ "") :
    m.repository ≠ "" := by
  cases hc : f.content with
  | none => rw [parse_metadata, hc] at hacc; simp at hacc
  | some d =>
    rw [parse_metadata, hc] at hacc
    simp at hacc
    have hrep : m.repository = deriveRepository f.name := by
      rw [← hacc]
    rw [hrep, deriveRepository]
    intro hcontra
    apply hne
    have hlen := strReplace_underscore_length (strReplace (stemOf f.name) "_metadata" "")
    rw [hcontra] at hlen
    have h0 : (strReplace (stemOf f.name) "_metadata" "").length = 0 := by
      simpa using hlen.symm
    have h1 : (strReplace (stemOf f.name) "_metadata" "").data.length = 0 := h0
    exact String.ext (List.length_eq_zero.mp h1)

def c8good : MFile := { name := "acme_widgets_metadata.json", content := some {} }

def c8goodRec : MetadataRecord := { repository := "acme/widgets" }

theorem claim_C8_amended_witness :
    parse_metadata c8good = some c8goodRec ∧
    strReplace (stemOf c8good.name) "_metadata" "" ≠ "" ∧
    c8goodRec.repository ≠ "" :=
  ⟨by decide, by decide,
   claim_C8_amended c8good c8goodRec (by decide) (by decide)⟩

def c9bad : MFile :=
  { name := "bad_metadata.json"
    content := some { duration := some (.jstr "twelve seconds") } }

def c9good : MFile :=
  { name := "good_metadata.json"
    content := some { pullRequestsFetched := some (.jnum 5) } }

/-- C9: per-record containment covers only unreadable files, malformed
JSON and bad timestamps — a readable, well-formed record with a
derivable repository but a non-numeric `duration` makes the update
raise; the exception escapes the cycle (the cycle's error slot is set)
and the record after it in the same cycle receives no updates at all. -/
theorem claim_C9 :
    (parse_metadata c9bad).isSome = true ∧
    deriveRepository c9bad.name = "bad" ∧
    (collect_metrics (fun _ => none) initCollector [c9bad, c9good]).2
      = some "TypeError: observe" ∧
    (collect_metrics (fun _ => none) initCollector [c9bad, c9good]).1.metrics.prs_fetched
      "good" = none ∧
    (collect_metrics (fun _ => none) initCollector [c9bad, c9good]).1.metrics.fetch_state
      "good" = none ∧
    ((collect_metrics (fun _ => none) initCollector [c9bad, c9good]).1.known_repos
      "good").isSome = false := by
  exact ⟨rfl, by decide, rfl, rfl, rfl, rfl⟩

/-- C10: a repository known from an earlier cycle whose metadata file is
still present in the directory but fails to parse this cycle (as does
any other file that would derive its identifier) is treated exactly like
a missing repository: once the cycle completes its fetch-state gauge is
0 (NEVER_FETCHED), although its file exists. -/
theorem claim_C10 (fsys : String → Option ℚ) (c : Collector)
    (files : List MFile) (f : MFile) (r : String)
    (hf : f ∈ files)
    (hname : "_metadata.json".toList.isSuffixOf f.name.toList = true)
    (hbad : f.content = none)
    (hrepo : deriveRepository f.name = r)
    (hknown : (c.known_repos r).isSome = true)
    (hall : ∀ g ∈ files, deriveRepository g.name = r → g.content = none)
    (hok : (collect_metrics fsys c files).2 = none) :
    (collect_metrics fsys c files).1.metrics.fetch_state r = some 0 := by
  have habs2 : r ∉ (cycleRecords files).map (fun m => m.repository) := by
    simp only [List.mem_map, not_exists]
    rintro m ⟨hm, hmr⟩
    rw [cycleRecords, List.mem_filterMap] at hm
    obtain ⟨g, hg, hpg⟩ := hm
    rw [scan_metadata_files, List.mem_filter] at hg
    obtain ⟨hgf, _⟩ := hg
    cases hgc : g.content with
    | none => rw [parse_metadata, hgc] at hpg; simp at hpg
    | some d =>
      rw [parse_metadata, hgc] at hpg
      simp at hpg
      rw [← hpg] at hmr
      have hnone : g.content = none := hall g hgf hmr
      rw [hgc] at hnone
      simp at hnone
  exact (collect_absent_zero fsys c files r hknown habs2 hok).1

def c10file : MFile := { name := "ghost_metadata.json", content := none }

def c10rec : MetadataRecord := { repository := "ghost" }

def c10col : Collector :=
  { metrics := initMetrics
    known_repos := fun r => if r = "ghost" then some c10rec else none }

theorem claim_C10_witness :
    c10file ∈ [c10file] ∧
    "_metadata.json".toList.isSuffixOf c10file.name.toList = true ∧
    c10file.content = none ∧
    deriveRepository c10file.name = "ghost" ∧
    (c10col.known_repos "ghost").isSome = true ∧
    (∀ g ∈ [c10file], deriveRepository g.name = "ghost" → g.content = none) ∧
    (collect_metrics (fun _ => none) c10col [c10file]).2 = none ∧
    (collect_metrics (fun _ => none) c10col [c10file]).1.metrics.fetch_state "ghost"
      = some 0 :=
  ⟨by decide, by decide, rfl, by decide, by decide, by decide, rfl,
   claim_C10 (fun _ => none) c10col [c10file] c10file "ghost"
     (by decide) (by decide) rfl (by decide) (by decide) (by decide) rfl⟩

end Relay
